import Mathlib

/-!
# Verification of the Whisper branch predictor (gem5, `cpu/pred/whisper.{hh,cc}`)

This file gives a shallow embedding in Lean 4 of the Whisper branch predictor:
the hint codec, the read-once monotone Boolean formula (ROMBF) evaluator, the
LRU hint buffer, per-thread global history, and the predictor façade
(`lookup`, `update`, `updateHistories`, `squash`, `insert`).

Machine integers are modelled as `Nat` with explicit truncation (`% 2^w`)
where the C++ types truncate.  A `std::bitset<N>` constructed from an integer
truncates to its low `N` bits, which is mirrored by `% 2^N` at the points
where the source constructs such bitsets.  The fallback predictor is an
external collaborator; its answers are passed in as parameters and the façade
operations additionally report whether the fallback was consulted.
-/

namespace Whisper

/-- `mask(N)` from gem5's `base/bitfield.hh`: the low-`n`-bits mask `2^n - 1`. -/
def mask (n : Nat) : Nat := 2 ^ n - 1

/-- `ROMBFSingleUnit(o, b)` from `whisper.cc`.  `o` and `b` are `std::bitset<2>`
values, modelled as `Nat` truncated to 2 bits on entry (the bitset constructor
truncates).  Computes `b0i = o[1] ? !b[0] : b[0]` and then
`(o[1] ^ o[0]) ? (b[1] || b0i) : (b[1] && b0i)`. -/
def ROMBFSingleUnit (o b : Nat) : Bool :=
  let o := o % 2 ^ 2
  let b := b % 2 ^ 2
  let b0i := if o.testBit 1 then ! b.testBit 0 else b.testBit 0
  if xor (o.testBit 1) (o.testBit 0) then b.testBit 1 || b0i else b.testBit 1 && b0i

/-- The root `u6` of the seven-subunit ROMBF tree of §4.2 of the spec
(`u0`..`u6` exactly as computed in `ROMBFUnit` in `whisper.cc`, without the
final inversion stage). -/
def rombfTreeU6 (o b : Nat) : Bool :=
  let o := o % 2 ^ 15
  let b := b % 2 ^ 8
  let u0 := ROMBFSingleUnit (o &&& mask 2) (b &&& mask 2)
  let u1 := ROMBFSingleUnit ((o >>> 4) &&& mask 2) ((b >>> 2) &&& mask 2)
  let u2 := ROMBFSingleUnit ((o >>> 2) &&& mask 2) (((u1.toNat <<< 1) ||| u0.toNat) &&& mask 2)
  let u3 := ROMBFSingleUnit ((o >>> 8) &&& mask 2) ((b >>> 4) &&& mask 2)
  let u4 := ROMBFSingleUnit ((o >>> 12) &&& mask 2) ((b >>> 6) &&& mask 2)
  let u5 := ROMBFSingleUnit ((o >>> 10) &&& mask 2) (((u4.toNat <<< 1) ||| u3.toNat) &&& mask 2)
  ROMBFSingleUnit ((o >>> 6) &&& mask 2) (((u5.toNat <<< 1) ||| u2.toNat) &&& mask 2)

/-- `ROMBFUnit(o, b)` from `whisper.cc`.  `o` is a `std::bitset<15>` and `b` a
`std::bitset<8>`; both are modelled as `Nat` truncated on entry exactly as the
bitset constructors truncate.  The final stage is the source's
`return o[15] ? u6 : !u6;`, where `o[15]` reads bit 15 of the 15-bit selector's
backing word. -/
def ROMBFUnit (o b : Nat) : Bool :=
  let om := o % 2 ^ 15
  let bm := b % 2 ^ 8
  let u0 := ROMBFSingleUnit (om &&& mask 2) (bm &&& mask 2)
  let u1 := ROMBFSingleUnit ((om >>> 4) &&& mask 2) ((bm >>> 2) &&& mask 2)
  let u2 := ROMBFSingleUnit ((om >>> 2) &&& mask 2) (((u1.toNat <<< 1) ||| u0.toNat) &&& mask 2)
  let u3 := ROMBFSingleUnit ((om >>> 8) &&& mask 2) ((bm >>> 4) &&& mask 2)
  let u4 := ROMBFSingleUnit ((om >>> 12) &&& mask 2) ((bm >>> 6) &&& mask 2)
  let u5 := ROMBFSingleUnit ((om >>> 10) &&& mask 2) (((u4.toNat <<< 1) ||| u3.toNat) &&& mask 2)
  let u6 := ROMBFSingleUnit ((om >>> 6) &&& mask 2) (((u5.toNat <<< 1) ||| u2.toNat) &&& mask 2)
  if om.testBit 15 then u6 else ! u6

/-- The decoded `Hint` structure from `whisper.hh`: bit-fields
`history : 4`, `bool_formula : 15`, `bias : 2`, `pc_offset : 12`. -/
structure Hint where
  history : Nat
  bool_formula : Nat
  bias : Nat
  pc_offset : Nat
deriving DecidableEq, Repr

/-- `Hint::fromUInt(hint)` from `whisper.cc`: extracts
`history = (w >> 28) & mask(4)`, `bool_formula = (w >> 14) & mask(15)`,
`bias = (w >> 12) & mask(2)`, `pc_offset = w & mask(12)` from the 32-bit
hint word. -/
def Hint.fromUInt (w : Nat) : Hint :=
  let w := w % 2 ^ 32
  { history := (w >>> 28) &&& mask 4
    bool_formula := (w >>> 14) &&& mask 15
    bias := (w >>> 12) &&& mask 2
    pc_offset := w &&& mask 12 }

/-- `Hint::histLength()` from `whisper.cc`: the geometric history-length table
indexed by the 4-bit `history` selector.  The `default` branch is unreachable
for decoded hints (the field is 4 bits wide); the source asserts there and
falls through to `return 0`. -/
def Hint.histLength (h : Hint) : Nat :=
  match h.history with
  | 0 => 8
  | 1 => 11
  | 2 => 15
  | 3 => 21
  | 4 => 29
  | 5 => 40
  | 6 => 56
  | 7 => 77
  | 8 => 106
  | 9 => 147
  | 10 => 203
  | 11 => 281
  | 12 => 388
  | 13 => 536
  | 14 => 741
  | 15 => 1024
  | _ => 0

/-- Modelled from the spec (§4.1): the hint encoder, which the source does not
contain (only the decoder `Hint::fromUInt` is in `whisper.cc`).  Following the
spec's words: `encode(h,f,b,o) = (h<<28) | ((f & 0x7FFF) << 14) | ((b & 3) << 12)
| (o & 0xFFF)`, truncated to the 32-bit hint word. -/
def encode (h f b o : Nat) : Nat :=
  ((h <<< 28) ||| ((f &&& mask 15) <<< 14) ||| ((b &&& 3) <<< 12) ||| (o &&& mask 12)) % 2 ^ 32

/-- A `HintBufferEntry` from `whisper.hh`: a branch address and the raw 32-bit
hint word.  (In the source, two entries compare equal when their `addr`
matches; the buffer operations below compare addresses directly.) -/
structure HintBufferEntry where
  addr : Nat
  hint : Nat
deriving DecidableEq, Repr

/-- The mutable state of a `WhisperBP` instance: the configured capacity, the
hint buffer (a `std::list`, front = LRU, back = MRU), and the per-thread
1024-bit global-history registers (`std::map<ThreadID, std::bitset<1024>>`,
modelled as a total function defaulting to the all-zero register, which
matches the source's insert-zero-on-first-reference behaviour). -/
structure BPState where
  hintBufferSize : Nat
  hintBuffer : List HintBufferEntry
  globalHistory : Nat → Nat

/-- `WhisperBP::lookupBuffer(pc)`: `std::find_if` over the buffer, returning
the first entry whose `addr` equals `pc` (front-to-back). -/
def lookupBuffer (buf : List HintBufferEntry) (pc : Nat) : Option HintBufferEntry :=
  buf.find? (fun e => e.addr == pc)

/-- The combined effect on the buffer of `lookupBuffer(pc)` followed by
`markUsed(it)` in `WhisperBP::predict`: if a first matching entry exists, a
copy of it is appended at the back (`emplace_back(*it)`) and the original is
erased (`erase(it)`); otherwise the buffer is unchanged. -/
def markUsed (pc : Nat) : List HintBufferEntry → List HintBufferEntry
  | [] => []
  | e :: rest => if e.addr = pc then rest ++ [e] else e :: markUsed pc rest

/-- `WhisperBP::updateGlobalHistory(tid, taken)`: left-shift the thread's
1024-bit register by one and OR `taken` into bit 0.  The shift drops bit 1023,
hence the truncation `% 2^1024`; ORing `taken` into the (even) shifted value
is addition. -/
def updateGlobalHistory (gh : Nat → Nat) (tid : Nat) (taken : Bool) : Nat → Nat :=
  fun t => if t = tid then (gh tid * 2 + taken.toNat) % 2 ^ 1024 else gh t

/-- `WhisperBP::predict(tid, pc, ...)`: look up `pc` in the hint buffer and
mark the hit (if any) as most recently used; on a hit decode the hint and
produce `some false` for bias `0b00`, `some true` for bias `0b11`, the ROMBF
evaluation over the low 8 history bits when `histLength() == 8`, and `none`
(unimplemented) otherwise; on a miss produce `none`.  Returns the optional
prediction together with the updated state. -/
def predict (s : BPState) (tid pc : Nat) : Option Bool × BPState :=
  let s' := { s with hintBuffer := markUsed pc s.hintBuffer }
  match lookupBuffer s.hintBuffer pc with
  | none => (none, s')
  | some entry =>
    let hint := Hint.fromUInt entry.hint
    if hint.bias = 0b00 then (some false, s')
    else if hint.bias = 0b11 then (some true, s')
    else if hint.histLength = 8 then
      let hist := s.globalHistory tid &&& mask 8
      (some (ROMBFUnit hint.bool_formula hist), s')
    else (none, s')

/-- `WhisperBP::lookup(tid, pc, bp_history)`: call `predict`; if it produced a
prediction return it, otherwise delegate to the fallback.  The fallback's
answer is passed in as `fallbackResult`; the last component records whether
`fallbackPredictor->lookup` was invoked. -/
def lookup (s : BPState) (tid pc : Nat) (fallbackResult : Bool) :
    Bool × BPState × Bool :=
  match predict s tid pc with
  | (some b, s') => (b, s', false)
  | (none, s') => (fallbackResult, s', true)

/-- `WhisperBP::updateHistories(tid, pc, uncond, taken, ...)`: update the
thread's global history when the branch is conditional, then forward to the
fallback exactly when `pc` misses in the hint buffer.  Returns the new state
and whether the fallback was consulted. -/
def updateHistories (s : BPState) (tid pc : Nat) (uncond taken : Bool) :
    BPState × Bool :=
  let s' := if uncond then s
            else { s with globalHistory := updateGlobalHistory s.globalHistory tid taken }
  (s', (lookupBuffer s'.hintBuffer pc).isNone)

/-- `WhisperBP::update(tid, pc, taken, ..., squashed, ...)`: when not
squashed, run the diagnostic `predict` (whose only state effect is the
`markUsed` relocation); then forward to the fallback exactly when `pc` misses
in the hint buffer.  Returns the new state and whether the fallback was
consulted. -/
def update (s : BPState) (tid pc : Nat) (squashed : Bool) : BPState × Bool :=
  let s' := if squashed then s else (predict s tid pc).2
  (s', (lookupBuffer s'.hintBuffer pc).isNone)

/-- `WhisperBP::squash(tid, bp_history)`: forward to the fallback iff
`bp_history` is non-null; Whisper's own state is untouched.  Returns the
(unchanged) state and whether the fallback was consulted. -/
def squash (s : BPState) (bpHistoryNonNull : Bool) : BPState × Bool :=
  (s, bpHistoryNonNull)

/-- The front-eviction loop of `WhisperBP::insert`:
`while (hintBuffer.size() >= hintBufferSize) hintBuffer.pop_front();`.
Popping the front of an empty `std::list` is undefined behaviour in C++ (and
the loop condition `0 >= 0` would hold forever when `cap = 0`), so that case
is modelled as `none`. -/
def evictLoop (cap : Nat) : List HintBufferEntry → Option (List HintBufferEntry)
  | [] => if 0 ≥ cap then none else some []
  | e :: rest =>
    if rest.length + 1 ≥ cap then evictLoop cap rest else some (e :: rest)

/-- `WhisperBP::insert(pc, hint)`: run the front-eviction loop, then decode
the hint, compute `brPC = pc + hint.pc_offset` (64-bit `Addr` arithmetic) and
append `{brPC, hint}` at the back.  `none` when the eviction loop hits
undefined behaviour (capacity 0). -/
def insert (s : BPState) (pc hint : Nat) : Option BPState :=
  match evictLoop s.hintBufferSize s.hintBuffer with
  | none => none
  | some buf =>
    let hintObj := Hint.fromUInt hint
    let brPC := (pc + hintObj.pc_offset) % 2 ^ 64
    some { s with hintBuffer := buf ++ [⟨brPC, hint % 2 ^ 32⟩] }

/-! ## Basic bit-manipulation lemmas -/

theorem and_mask (x n : Nat) : x &&& mask n = x % 2 ^ n := by
  simp [mask, Nat.and_pow_two_sub_one_eq_mod]

theorem lor_lowbits (a x k : Nat) (hx : x < 2 ^ k) : a * 2 ^ k ||| x = a * 2 ^ k + x := by
  rw [mul_comm]
  exact (Nat.mul_add_lt_is_or hx a).symm

/-! ## C1: the ROMBF evaluator always negates the tree root `u6` -/

/-- **C1.** For every 15-bit formula selector `o` and every 8-bit history `b`,
`ROMBFUnit(o, b)` returns the negation of the top subunit's output `u6`: the
top-level inversion selector is bit 15 of a value truncated to 15 bits, hence
always 0, so the result is `¬u6` where `u6` is the root of the seven-subunit
tree of §4.2. -/
theorem rombf_top_inversion (o b : Nat) : ROMBFUnit o b = ! rombfTreeU6 o b := by
  unfold ROMBFUnit rombfTreeU6
  have h15 : (o % 2 ^ 15).testBit 15 = false :=
    Nat.testBit_lt_two_pow (Nat.mod_lt o (by norm_num))
  simp only [h15, Bool.false_eq_true, if_false]

/-! ## C2: decode after encode -/

theorem encode_eq_sum (h f b o : Nat) (hh : h < 16)
    (hov : h % 2 = f % 2 ^ 15 / 2 ^ 14) :
    encode h f b o =
      h * 2 ^ 28 + f % 2 ^ 15 % 2 ^ 14 * 2 ^ 14 + b % 4 * 2 ^ 12 + o % 2 ^ 12 := by
  have hb3 : b &&& 3 = b % 4 := by
    have := Nat.and_pow_two_sub_one_eq_mod b 2
    norm_num at this
    exact this
  unfold encode
  rw [and_mask, and_mask, hb3, Nat.shiftLeft_eq, Nat.shiftLeft_eq, Nat.shiftLeft_eq,
    Nat.lor_assoc, Nat.lor_assoc,
    lor_lowbits (b % 4) (o % 2 ^ 12) 12 (by omega),
    lor_lowbits (f % 2 ^ 15) (b % 4 * 2 ^ 12 + o % 2 ^ 12) 14 (by omega)]
  have hsplit : f % 2 ^ 15 * 2 ^ 14 + (b % 4 * 2 ^ 12 + o % 2 ^ 12) =
      f % 2 ^ 15 / 2 ^ 14 * 2 ^ 28 +
        (f % 2 ^ 15 % 2 ^ 14 * 2 ^ 14 + (b % 4 * 2 ^ 12 + o % 2 ^ 12)) := by
    omega
  have hY : f % 2 ^ 15 % 2 ^ 14 * 2 ^ 14 + (b % 4 * 2 ^ 12 + o % 2 ^ 12) < 2 ^ 28 := by
    omega
  rw [hsplit, ← lor_lowbits (f % 2 ^ 15 / 2 ^ 14) _ 28 hY, ← Nat.lor_assoc]
  have hhc : h * 2 ^ 28 ||| f % 2 ^ 15 / 2 ^ 14 * 2 ^ 28 = h * 2 ^ 28 := by
    rcases Nat.mod_two_eq_zero_or_one h with hpar | hpar
    · rw [← hov, hpar]
      simp
    · rw [← hov, hpar, one_mul]
      have h28 : h * 2 ^ 28 = 2 ^ 29 * (h / 2) + 2 ^ 28 := by omega
      rw [h28, Nat.mul_add_lt_is_or (show (2 : Nat) ^ 28 < 2 ^ 29 by norm_num) (h / 2),
        Nat.lor_assoc, Nat.or_self]
  rw [hhc, lor_lowbits h _ 28 hY, Nat.mod_eq_of_lt (by omega)]
  omega

/-- **C2 (amended).** Decoding recovers the masked fields when the encoder's
arguments agree on the one overlapping bit: for every `h < 16` and every
`f, b, o` with `h % 2 = (f >> 14) % 2` (bit 14 of the 15-bit formula field
coincides with bit 0 of `history`, as §4.1 requires of agreeing encoders),
`Hint.fromUInt (encode h f b o) = (h, f & 0x7FFF, b & 3, o & 0xFFF)`. -/
theorem hint_decode_encode (h f b o : Nat) (hh : h < 16)
    (hagree : h % 2 = (f >>> 14) % 2) :
    Hint.fromUInt (encode h f b o) =
      { history := h, bool_formula := f &&& mask 15, bias := b &&& 3,
        pc_offset := o &&& mask 12 } := by
  have hov : h % 2 = f % 2 ^ 15 / 2 ^ 14 := by
    rw [hagree, Nat.shiftRight_eq_div_pow]
    omega
  have hb3 : b &&& 3 = b % 4 := by
    have := Nat.and_pow_two_sub_one_eq_mod b 2
    norm_num at this
    exact this
  have hsum := encode_eq_sum h f b o hh hov
  simp only [Hint.fromUInt, and_mask, hb3, Nat.shiftRight_eq_div_pow, hsum, Hint.mk.injEq]
  refine ⟨?_, ?_, ?_, ?_⟩ <;> omega

/-- Witness for C2's amended theorem at `h = 1, f = 0x4000, b = 2, o = 5`. -/
theorem hint_decode_encode_witness :
    Hint.fromUInt (encode 1 16384 2 5) =
      { history := 1, bool_formula := 16384 &&& mask 15, bias := 2 &&& 3,
        pc_offset := 5 &&& mask 12 } :=
  hint_decode_encode 1 16384 2 5 (by decide) (by decide)

/-- **C2 (counterexample).** The claim as stated fails at `h = 0,
f = 0x4000, b = 0, o = 0`: bit 14 of the formula field lands on bit 28 of the
word and is decoded back as bit 0 of `history`, so the decoded fields are
`(1, 0x4000, 0, 0)`, not `(0, 0x4000, 0, 0)`. -/
theorem hint_decode_encode_counterexample :
    Hint.fromUInt (encode 0 16384 0 0) ≠
      { history := 0, bool_formula := 16384 &&& mask 15, bias := 0 &&& 3,
        pc_offset := 0 &&& mask 12 } := by
  decide

/-! ## Hint-buffer lemmas -/

theorem markUsed_length (pc : Nat) (buf : List HintBufferEntry) :
    (markUsed pc buf).length = buf.length := by
  induction buf with
  | nil => rfl
  | cons e rest ih =>
    by_cases h : e.addr = pc <;> simp [markUsed, h, ih]

/-- `predict`'s only effect on the hint buffer is the `markUsed` relocation. -/
theorem predict_buffer (s : BPState) (tid pc : Nat) :
    (predict s tid pc).2.hintBuffer = markUsed pc s.hintBuffer := by
  unfold predict
  rcases h : lookupBuffer s.hintBuffer pc with _ | entry
  · simp
  · simp only
    split_ifs <;> rfl

/-- `predict` does not touch the capacity. -/
theorem predict_size (s : BPState) (tid pc : Nat) :
    (predict s tid pc).2.hintBufferSize = s.hintBufferSize := by
  unfold predict
  rcases h : lookupBuffer s.hintBuffer pc with _ | entry
  · simp
  · simp only
    split_ifs <;> rfl

/-- `predict` does not touch the global history. -/
theorem predict_gh (s : BPState) (tid pc : Nat) :
    (predict s tid pc).2.globalHistory = s.globalHistory := by
  unfold predict
  rcases h : lookupBuffer s.hintBuffer pc with _ | entry
  · simp
  · simp only
    split_ifs <;> rfl

/-- The state returned by `lookup` is the state returned by `predict`. -/
theorem lookup_state (s : BPState) (tid pc : Nat) (fb : Bool) :
    (lookup s tid pc fb).2.1 = (predict s tid pc).2 := by
  unfold lookup
  rcases h : predict s tid pc with ⟨p, s'⟩
  cases p <;> simp

/-! ## C8: a lookup hit moves the first matching entry to the back -/

/-- **C8.** After a `lookup`, the hint buffer is: unchanged if no entry's
address matches `pc`; otherwise, with `i` the position of the first
front-to-back match, the buffer with the entry at `i` removed and re-appended
(addr and hint word unchanged) at the back, every other entry keeping its
relative order.  The buffer size is unchanged in both cases. -/
theorem lookup_moves_hit_to_back (s : BPState) (tid pc : Nat) (fb : Bool) :
    (lookup s tid pc fb).2.1.hintBuffer =
      (match s.hintBuffer.findIdx? (fun e => e.addr == pc) with
       | none => s.hintBuffer
       | some i => s.hintBuffer.eraseIdx i ++ (s.hintBuffer[i]?).toList) ∧
    (lookup s tid pc fb).2.1.hintBuffer.length = s.hintBuffer.length := by
  rw [lookup_state, predict_buffer]
  refine ⟨?_, markUsed_length pc s.hintBuffer⟩
  induction s.hintBuffer with
  | nil => rfl
  | cons e rest ih =>
    by_cases h : e.addr = pc
    · simp [markUsed, h]
    · simp only [markUsed, h, if_false, List.findIdx?_cons, beq_iff_eq, List.findIdx?_succ]
      rcases hfind : rest.findIdx? (fun x => x.addr == pc) with _ | j <;>
        · simp only [hfind] at ih
          simp [hfind, ih]

/-! ## C5: bias 00/11 short-circuits the prediction -/

/-- **C5.** If the hint buffer's first entry matching `pc` decodes to a bias
of `0b00` or `0b11`, then `lookup` returns `bias == 0b11` — independently of
the formula selector, the history-length selector and the thread's global
history (the state `s` and thread `tid` are arbitrary) — and the fallback is
not consulted. -/
theorem lookup_bias_shortcircuit (s : BPState) (tid pc : Nat) (fb : Bool)
    (entry : HintBufferEntry)
    (hfind : lookupBuffer s.hintBuffer pc = some entry)
    (hbias : (Hint.fromUInt entry.hint).bias = 0b00 ∨
      (Hint.fromUInt entry.hint).bias = 0b11) :
    (lookup s tid pc fb).1 = decide ((Hint.fromUInt entry.hint).bias = 0b11) ∧
    (lookup s tid pc fb).2.2 = false := by
  unfold lookup predict
  rcases hbias with hb | hb <;> simp [hfind, hb]

/-- Witness for C5 at a one-entry buffer whose hint has bias `0b11`
(hint word `0x3000`): the prediction is taken and the fallback untouched. -/
theorem lookup_bias_shortcircuit_witness :
    (lookup ⟨4, [⟨4096, 12288⟩], fun _ => 0⟩ 0 4096 false).1 =
      decide ((Hint.fromUInt (12288 : Nat)).bias = 0b11) ∧
    (lookup ⟨4, [⟨4096, 12288⟩], fun _ => 0⟩ 0 4096 false).2.2 = false :=
  lookup_bias_shortcircuit ⟨4, [⟨4096, 12288⟩], fun _ => 0⟩ 0 4096 false
    ⟨4096, 12288⟩ (by decide) (Or.inr (by decide))

/-! ## C6: histories longer than 8 (and buffer misses) delegate to fallback -/

/-- **C6.** Whenever every hint-buffer entry found for `pc` has bias `0b01` or
`0b10` and a history length greater than 8, `lookup` produces no Whisper
prediction: it returns exactly the fallback's result and the fallback is
consulted.  When no entry matches `pc` the premise holds vacuously, so the
same delegation is covered. -/
theorem lookup_delegates_to_fallback (s : BPState) (tid pc : Nat) (fb : Bool)
    (h : ∀ entry, lookupBuffer s.hintBuffer pc = some entry →
      ((Hint.fromUInt entry.hint).bias = 0b01 ∨
        (Hint.fromUInt entry.hint).bias = 0b10) ∧
      8 < (Hint.fromUInt entry.hint).histLength) :
    (lookup s tid pc fb).1 = fb ∧ (lookup s tid pc fb).2.2 = true := by
  unfold lookup predict
  rcases hfind : lookupBuffer s.hintBuffer pc with _ | entry
  · simp
  · obtain ⟨hb, hl⟩ := h entry hfind
    have h0 : (Hint.fromUInt entry.hint).bias ≠ 0b00 := by omega
    have h3 : (Hint.fromUInt entry.hint).bias ≠ 0b11 := by omega
    have h8 : (Hint.fromUInt entry.hint).histLength ≠ 8 := by omega
    simp [hfind, h0, h3, h8]

/-- Witness for C6 at a one-entry buffer whose hint has bias `0b01` and
history selector 1 (history length 11 > 8): the fallback's answer is returned
and the fallback is consulted. -/
theorem lookup_delegates_to_fallback_witness :
    (lookup ⟨4, [⟨4096, 268439552⟩], fun _ => 0⟩ 0 4096 true).1 = true ∧
    (lookup ⟨4, [⟨4096, 268439552⟩], fun _ => 0⟩ 0 4096 true).2.2 = true :=
  lookup_delegates_to_fallback ⟨4, [⟨4096, 268439552⟩], fun _ => 0⟩ 0 4096 true
    (fun entry hfind => by
      have he : (⟨4096, 268439552⟩ : HintBufferEntry) = entry := by
        have h0 : lookupBuffer [⟨4096, 268439552⟩] 4096 =
            some (⟨4096, 268439552⟩ : HintBufferEntry) := by decide
        exact Option.some.inj ((h0.symm.trans hfind))
      rw [← he]
      exact ⟨Or.inl (by decide), by decide⟩)

/-! ## C9: the global history is a shift register of conditional outcomes -/

/-- A sequence of conditional (`uncond = false`) `updateHistories` calls on
thread `tid` with the given taken outcomes, in call order. -/
def runCondUpdates (s : BPState) (tid pc : Nat) (ts : List Bool) : BPState :=
  ts.foldl (fun st t => (updateHistories st tid pc false t).1) s

/-- The pure 1024-bit shift register: fold the outcomes into the register,
shifting left by one and injecting each outcome at bit 0. -/
def shiftReg (g : Nat) (ts : List Bool) : Nat :=
  ts.foldl (fun g t => (g * 2 + t.toNat) % 2 ^ 1024) g

theorem runCondUpdates_gh (s : BPState) (tid pc : Nat) (ts : List Bool) :
    (runCondUpdates s tid pc ts).globalHistory tid =
      shiftReg (s.globalHistory tid) ts := by
  induction ts generalizing s with
  | nil => rfl
  | cons t ts ih =>
    show (runCondUpdates _ tid pc ts).globalHistory tid = _
    rw [ih]
    simp [updateHistories, updateGlobalHistory, shiftReg]

theorem runCondUpdates_buffer (s : BPState) (tid pc : Nat) (ts : List Bool) :
    (runCondUpdates s tid pc ts).hintBuffer = s.hintBuffer := by
  induction ts generalizing s with
  | nil => rfl
  | cons t ts ih => exact ih _

theorem runCondUpdates_size (s : BPState) (tid pc : Nat) (ts : List Bool) :
    (runCondUpdates s tid pc ts).hintBufferSize = s.hintBufferSize := by
  induction ts generalizing s with
  | nil => rfl
  | cons t ts ih => exact ih _

theorem shiftReg_append (g : Nat) (ts : List Bool) (t : Bool) :
    shiftReg g (ts ++ [t]) = (shiftReg g ts * 2 + t.toNat) % 2 ^ 1024 := by
  simp [shiftReg]

theorem shiftReg_testBit (g : Nat) (ts : List Bool) (k : Nat)
    (hk : k < 1024) (hn : k < ts.length) :
    (shiftReg g ts).testBit k = ts.getD (ts.length - 1 - k) false := by
  induction ts using List.reverseRecOn generalizing k with
  | nil => simp at hn
  | append_singleton ts t ih =>
    rw [shiftReg_append]
    rw [Nat.testBit_mod_two_pow, decide_eq_true hk, Bool.true_and]
    cases k with
    | zero =>
      rw [Nat.testBit_zero]
      have : (shiftReg g ts * 2 + t.toNat) % 2 = t.toNat := by
        cases t <;> simp <;> omega
      simp only [this]
      cases t <;> simp
    | succ k =>
      rw [Nat.testBit_succ]
      have hdiv : (shiftReg g ts * 2 + t.toNat) / 2 = shiftReg g ts := by
        cases t <;> simp <;> omega
      rw [hdiv]
      have hn' : k < ts.length := by
        simp at hn
        omega
      rw [ih k (by omega) hn']
      have hidx : ts.length + 1 - 1 - (k + 1) = ts.length - 1 - k := by omega
      have hlt : ts.length - 1 - k < ts.length := by omega
      simp only [List.length_append, List.length_cons, List.length_nil, hidx]
      simp [List.getD, List.getElem?_append, hlt]

/-- **C9.** On a conditional branch (`uncond = false`), `updateHistories`
left-shifts the thread's 1024-bit register by one and ORs `taken` into bit 0;
on an unconditional branch (`uncond = true`) it leaves the register unchanged.
Consequently, for every bit position `k < 1024` and every sequence of at least
`k + 1` conditional updates, bit `k` of the register equals the taken value
supplied `k` updates before the most recent one. -/
theorem global_history_shift_register (s : BPState) (tid pc : Nat)
    (taken : Bool) (ts : List Bool) (k : Nat) (hk : k < 1024)
    (hn : k < ts.length) :
    (updateHistories s tid pc false taken).1.globalHistory tid =
      (s.globalHistory tid * 2 + taken.toNat) % 2 ^ 1024 ∧
    (updateHistories s tid pc true taken).1.globalHistory = s.globalHistory ∧
    ((runCondUpdates s tid pc ts).globalHistory tid).testBit k =
      ts.getD (ts.length - 1 - k) false := by
  refine ⟨?_, rfl, ?_⟩
  · simp [updateHistories, updateGlobalHistory]
  · rw [runCondUpdates_gh]
    exact shiftReg_testBit _ ts k hk hn

set_option maxRecDepth 8192 in
/-- Witness for C9 at `ts = [true, false, true]`, `k = 1`: after the three
conditional updates from the all-zero register the history is `0b101`, whose
bit 1 is the outcome one update before the most recent, `false`. -/
theorem global_history_shift_register_witness :
    ((updateHistories ⟨4, [], fun _ => 0⟩ 0 4096 false true).1.globalHistory 0 =
      ((fun _ => (0 : Nat)) 0 * 2 + Bool.toNat true) % 2 ^ 1024) ∧
    ((updateHistories ⟨4, [], fun _ => 0⟩ 0 4096 true true).1.globalHistory =
      fun _ => (0 : Nat)) ∧
    ((runCondUpdates ⟨4, [], fun _ => 0⟩ 0 4096 [true, false, true]).globalHistory 0).testBit 1 =
      [true, false, true].getD ([true, false, true].length - 1 - 1) false :=
  global_history_shift_register ⟨4, [], fun _ => 0⟩ 0 4096 true
    [true, false, true] 1 (by decide) (by decide)

/-! ## C10: frame effects of `update`, `updateHistories` and `squash` -/

/-- **C10.** A non-squashed `update` performs on the hint buffer exactly the
`markUsed` relocation that `lookup` performs (a matching entry moves to the
back, via the diagnostic `predict` path); `updateHistories` and `squash`
never change the hint buffer's contents or order (`squash` leaves the whole
state untouched). -/
theorem update_frame_effects (s : BPState) (tid pc : Nat) (fb : Bool)
    (uncond taken nonNull : Bool) :
    (update s tid pc false).1.hintBuffer = markUsed pc s.hintBuffer ∧
    (update s tid pc false).1.hintBuffer = (lookup s tid pc fb).2.1.hintBuffer ∧
    (updateHistories s tid pc uncond taken).1.hintBuffer = s.hintBuffer ∧
    (squash s nonNull).1 = s := by
  have h1 : (update s tid pc false).1.hintBuffer = markUsed pc s.hintBuffer := by
    unfold update
    simp [predict_buffer]
  refine ⟨h1, ?_, ?_, rfl⟩
  · rw [h1, lookup_state, predict_buffer]
  · unfold updateHistories
    cases uncond <;> rfl

/-! ## C7: the hint buffer never exceeds its capacity -/

/-- One invocation of the predictor façade, with the external inputs (thread,
PC, fallback answer, branch kind, outcome, `bp_history` nullness) baked in. -/
inductive Op where
  | opInsert (pc hint : Nat)
  | opLookup (tid pc : Nat) (fb : Bool)
  | opUpdate (tid pc : Nat) (squashed : Bool)
  | opUpdateHist (tid pc : Nat) (uncond taken : Bool)
  | opSquash (nonNull : Bool)
deriving Repr

/-- Run one façade operation; `none` when `insert` hits the capacity-0
undefined behaviour. -/
def runOp (s : BPState) : Op → Option BPState
  | .opInsert pc hint => insert s pc hint
  | .opLookup tid pc fb => some (lookup s tid pc fb).2.1
  | .opUpdate tid pc sq => some (update s tid pc sq).1
  | .opUpdateHist tid pc u t => some (updateHistories s tid pc u t).1
  | .opSquash n => some (squash s n).1

/-- Run a finite sequence of façade operations. -/
def runOps (s : BPState) : List Op → Option BPState
  | [] => some s
  | op :: ops => (runOp s op).bind (fun s' => runOps s' ops)

theorem evictLoop_length (cap : Nat) (buf buf' : List HintBufferEntry)
    (h : evictLoop cap buf = some buf') : buf'.length < cap := by
  induction buf with
  | nil =>
    unfold evictLoop at h
    split at h
    · exact absurd h (by simp)
    · cases h
      simpa using by omega
  | cons e rest ih =>
    unfold evictLoop at h
    split at h
    · exact ih h
    · cases h
      simp only [List.length_cons]
      omega

/-- Whenever `insert` returns a state, its buffer is within capacity. -/
theorem insert_length (s : BPState) (pc hint : Nat) (s' : BPState)
    (h : insert s pc hint = some s') :
    s'.hintBuffer.length ≤ s.hintBufferSize ∧
    s'.hintBufferSize = s.hintBufferSize := by
  unfold insert at h
  rcases hev : evictLoop s.hintBufferSize s.hintBuffer with _ | buf
  · rw [hev] at h
    cases h
  · rw [hev] at h
    cases h
    have := evictLoop_length _ _ _ hev
    refine ⟨?_, rfl⟩
    simp only [List.length_append, List.length_cons, List.length_nil]
    omega

theorem runOp_step (s : BPState) (op : Op) (s' : BPState)
    (h : runOp s op = some s') :
    s'.hintBufferSize = s.hintBufferSize ∧
    (s.hintBuffer.length ≤ s.hintBufferSize →
      s'.hintBuffer.length ≤ s.hintBufferSize) := by
  cases op with
  | opInsert pc hint =>
    obtain ⟨h1, h2⟩ := insert_length s pc hint s' h
    exact ⟨h2, fun _ => h1⟩
  | opLookup tid pc fb =>
    cases h
    rw [lookup_state]
    refine ⟨predict_size s tid pc, fun hb => ?_⟩
    rw [predict_buffer, markUsed_length]
    exact hb
  | opUpdate tid pc sq =>
    cases h
    unfold update
    cases sq
    · refine ⟨predict_size s tid pc, fun hb => ?_⟩
      simpa [predict_buffer, markUsed_length] using hb
    · exact ⟨rfl, fun hb => hb⟩
  | opUpdateHist tid pc u t =>
    cases h
    unfold updateHistories
    cases u
    · exact ⟨rfl, fun hb => hb⟩
    · exact ⟨rfl, fun hb => hb⟩
  | opSquash n =>
    cases h
    exact ⟨rfl, fun hb => hb⟩

/-- **C7.** Starting from any state within capacity (in particular the
constructor's empty buffer), any finite sequence of façade operations —
`insert` interleaved with lookups, updates, history updates and squashes —
keeps the number of hint-buffer entries at or below `hintBufferSize`:
overflowing inserts evict from the front before appending at the back. -/
theorem hint_buffer_within_capacity (s : BPState) (ops : List Op)
    (s' : BPState) (hs : s.hintBuffer.length ≤ s.hintBufferSize)
    (hrun : runOps s ops = some s') :
    s'.hintBuffer.length ≤ s'.hintBufferSize ∧
    s'.hintBufferSize = s.hintBufferSize := by
  induction ops generalizing s with
  | nil =>
    cases hrun
    exact ⟨hs, rfl⟩
  | cons op ops ih =>
    unfold runOps at hrun
    rcases hstep : runOp s op with _ | s₁
    · rw [hstep] at hrun
      cases hrun
    · rw [hstep] at hrun
      have hrun' : runOps s₁ ops = some s' := hrun
      obtain ⟨hsize, hlen⟩ := runOp_step s op s₁ hstep
      obtain ⟨h1, h2⟩ := ih s₁ (by rw [hsize]; exact hlen hs) hrun'
      exact ⟨h1, by omega⟩

/-- Witness for C7: capacity 2, three inserts (the first insert's entry is
evicted from the front by the third) — the final buffer has 2 ≤ 2 entries. -/
theorem hint_buffer_within_capacity_witness :
    (⟨2, [⟨2, 0⟩, ⟨3, 0⟩], fun _ => 0⟩ : BPState).hintBuffer.length ≤
      (⟨2, [⟨2, 0⟩, ⟨3, 0⟩], fun _ => 0⟩ : BPState).hintBufferSize ∧
    (⟨2, [⟨2, 0⟩, ⟨3, 0⟩], fun _ => 0⟩ : BPState).hintBufferSize =
      (⟨2, [], fun _ => 0⟩ : BPState).hintBufferSize :=
  hint_buffer_within_capacity ⟨2, [], fun _ => 0⟩
    [.opInsert 1 0, .opInsert 2 0, .opInsert 3 0]
    ⟨2, [⟨2, 0⟩, ⟨3, 0⟩], fun _ => 0⟩ (by decide) rfl

/-! ## C4: insert with a zero-capacity buffer -/

theorem evictLoop_zero (buf : List HintBufferEntry) : evictLoop 0 buf = none := by
  induction buf with
  | nil => rfl
  | cons e rest ih => simpa [evictLoop] using ih

/-- **C4 (code behaviour at the failing input).** When `hintBufferSize = 0`,
the front-eviction loop's condition `size >= hintBufferSize` can never become
false, so the loop reaches `pop_front()` on an empty `std::list` — undefined
behaviour, modelled as `none`: `insert` never returns a state at all (in
particular it does not return with an empty buffer, as the claim states). -/
theorem insert_capacity_zero (s : BPState) (pc hint : Nat)
    (h : s.hintBufferSize = 0) : insert s pc hint = none := by
  unfold insert
  rw [h, evictLoop_zero]

/-- Witness for C4's theorem at the concrete failing input: capacity 0, empty
buffer, `insert(0x1000, 0)`. -/
theorem insert_capacity_zero_witness :
    insert ⟨0, [], fun _ => 0⟩ 4096 0 = none :=
  insert_capacity_zero ⟨0, [], fun _ => 0⟩ 4096 0 rfl

/-! ## C3: end-to-end formula prediction with an 8-bit history -/

theorem fromUInt_mod (w : Nat) : Hint.fromUInt (w % 2 ^ 32) = Hint.fromUInt w := by
  simp [Hint.fromUInt]

set_option maxRecDepth 8192 in
/-- **C3 (amended).** Scenario E: insert a hint decoding to `history = 0`,
`bias = 0b01`, `pc_offset = 0`, formula `F` into a fresh predictor of capacity
≥ 1; issue 8 conditional `updateHistories` calls with taken pattern
`1,0,1,0,1,0,1,0` in call order (most recent outcome 0).  Then `lookup`
returns `ROMBF(F, 0b10101010)`: the low 8 bits of the thread's global history
are `0b10101010` (most recent outcome in bit 0), not `0b01010101` as the
claim states. -/
theorem scenario_formula_prediction (cap tid pcU pc w F : Nat) (fb : Bool)
    (s1 : BPState) (hcap : 1 ≤ cap) (hpc : pc < 2 ^ 64)
    (hdec : Hint.fromUInt w = ⟨0, F, 1, 0⟩)
    (hins : insert ⟨cap, [], fun _ => 0⟩ pc w = some s1) :
    (lookup (runCondUpdates s1 tid pcU
        [true, false, true, false, true, false, true, false]) tid pc fb).1 =
      ROMBFUnit F 0b10101010 := by
  unfold insert at hins
  have hev : evictLoop cap [] = some [] := by
    unfold evictLoop
    rw [if_neg (by omega)]
  rw [hev] at hins
  simp only [Option.some.injEq] at hins
  have hpo : (Hint.fromUInt w).pc_offset = 0 := by rw [hdec]
  rw [hpo, Nat.add_zero, Nat.mod_eq_of_lt hpc] at hins
  subst hins
  have hbuf : (runCondUpdates ⟨cap, [] ++ [⟨pc, w % 2 ^ 32⟩], fun _ => 0⟩ tid pcU
      [true, false, true, false, true, false, true, false]).hintBuffer =
      [⟨pc, w % 2 ^ 32⟩] :=
    runCondUpdates_buffer _ tid pcU _
  have hgh : (runCondUpdates ⟨cap, [] ++ [⟨pc, w % 2 ^ 32⟩], fun _ => 0⟩ tid pcU
      [true, false, true, false, true, false, true, false]).globalHistory tid =
      170 := by
    rw [runCondUpdates_gh]
    show shiftReg 0 [true, false, true, false, true, false, true, false] = 170
    decide
  unfold lookup predict
  rw [hbuf, hgh]
  have hfound : lookupBuffer [(⟨pc, w % 2 ^ 32⟩ : HintBufferEntry)] pc =
      some ⟨pc, w % 2 ^ 32⟩ := by
    simp [lookupBuffer]
  rw [hfound]
  simp only [fromUInt_mod, hdec]
  norm_num [Hint.histLength, and_mask, ROMBFUnit]

set_option maxRecDepth 8192 in
/-- **C3 (counterexample).** Scenario E as the claim states it fails at
formula `F = 71` (hint word `0x11D000`, capacity 1, `pc = 0x1000`): after the
insert and the 8 conditional updates with taken pattern `1,0,1,0,1,0,1,0`,
`lookup` returns `ROMBF(71, 0b10101010) = false`, which differs from the
claimed `ROMBF(71, 0b01010101) = true`. -/
theorem scenario_formula_prediction_counterexample :
    insert ⟨1, [], fun _ => 0⟩ 4096 1167360 =
      some ⟨1, [⟨4096, 1167360⟩], fun _ => 0⟩ ∧
    (lookup (runCondUpdates ⟨1, [⟨4096, 1167360⟩], fun _ => 0⟩ 0 0
        [true, false, true, false, true, false, true, false]) 0 4096 false).1 ≠
      ROMBFUnit 71 0b01010101 :=
  ⟨rfl, by decide⟩

set_option maxRecDepth 8192 in
/-- Witness for C3's amended theorem at formula `F = 71`, hint word
`0x11D000`, capacity 1, `pc = 0x1000`, thread 0. -/
theorem scenario_formula_prediction_witness :
    (lookup (runCondUpdates ⟨1, [⟨4096, 1167360⟩], fun _ => 0⟩ 0 0
        [true, false, true, false, true, false, true, false]) 0 4096 false).1 =
      ROMBFUnit 71 0b10101010 :=
  scenario_formula_prediction 1 0 0 4096 1167360 71 false
    ⟨1, [⟨4096, 1167360⟩], fun _ => 0⟩ (by decide) (by decide) (by decide) rfl

end Whisper
